import Mathlib

/-!
Verification development for the survey-coder application (`app.py`).

The application is a single-file Streamlit app.  The parts relevant to the
claims below are:

* `get_embeddings` — the embedding provider (seeded pseudo-random vectors);
* `call_claude_api` / `classify_item` — the per-response classifier, in
  single-label and multi-label mode;
* the "Classify All Responses" handler — deduplication of the coded column,
  the clustering-accelerated orchestration loop (cluster representatives,
  outliers, propagation, progress reporting) and the individual loop;
* the map-back of the results cache onto the original rows;
* the separator normalization and frequency aggregation of the results view.

External collaborators (the Anthropic API, numpy's seeded generator, sklearn's
DBSCAN, pandas) are modelled at their interface boundary: the LLM is an
oracle function/`Option` parameter, the seeded random generator is a fixed
stream parameter `Nat → ℚ`, and DBSCAN's output is a label list parameter of
the same length as the input.  Everything else is translated directly from
the source.
-/

namespace SurveyCoder

/-! ### Generic helpers: Python-faithful dictionaries, dedup, sorting

Python dictionaries preserve insertion order of keys; re-assigning an
existing key keeps its position and overwrites the value.  `dinsert` models
a single `d[k] = v` assignment on an association list, `dget?` models `d[k]`
lookup (as an `Option`), and `dictOfPairs` models a dict comprehension over
a list of pairs.  `firstDedup` models `pandas.unique` / Python `dict`-key
semantics: keep the first occurrence of each element.  `sortInts` is an
insertion sort used to model the iteration order of a CPython `set` of small
DBSCAN label integers (ascending ids; the `-1` noise label is skipped by the
loop that consumes it, so only the relative order of the non-negative ids is
observable). -/

variable {α : Type} {β : Type}

def keys (d : List (α × β)) : List α := d.map Prod.fst

def dinsert [DecidableEq α] (k : α) (v : β) (d : List (α × β)) : List (α × β) :=
  if k ∈ keys d then d.map (fun p => if p.1 = k then (k, v) else p) else d ++ [(k, v)]

def dget? [DecidableEq α] (d : List (α × β)) (k : α) : Option β :=
  (d.find? (fun p => p.1 = k)).map Prod.snd

def dictOfPairs [DecidableEq α] (ps : List (α × β)) : List (α × β) :=
  ps.foldl (fun d p => dinsert p.1 p.2 d) []

def firstDedupGo [DecidableEq α] (seen : List α) : List α → List α
  | [] => []
  | a :: rest =>
    if a ∈ seen then firstDedupGo seen rest
    else a :: firstDedupGo (a :: seen) rest

def firstDedup [DecidableEq α] (l : List α) : List α := firstDedupGo [] l

def insertSorted (x : Int) : List Int → List Int
  | [] => [x]
  | y :: ys => if x ≤ y then x :: y :: ys else y :: insertSorted x ys

def sortInts (l : List Int) : List Int := l.foldr insertSorted []

/-- Python's whitespace class (the ASCII part of `\s` / `str.strip`). -/
def isPyWs (c : Char) : Bool :=
  c = ' ' ∨ c = '\t' ∨ c = '\n' ∨ c = '\r' ∨ c = '\x0b' ∨ c = '\x0c'

/-- Python's `str.strip()`: remove leading and trailing whitespace. -/
def pyStrip (s : String) : String :=
  String.mk (((s.data.dropWhile isPyWs).reverse.dropWhile isPyWs).reverse)

/-! ### The classifier (`classify_item`, `call_claude_api`)

`call_claude_api` either returns the provider's text stripped of surrounding
whitespace (`.strip()`, modelled by `pyStrip`; plain mode), a validated structured object (pydantic mode), or
`None` on any exception / parse failure.  The provider is modelled as an
oracle: `Option String` for the raw-text path, `Option (List String)` for
the validated `ClassificationResult.assigned_codes` of the structured path
(`none` covers API errors and unparseable structured responses alike).

`classify_item` (the closure inside the "Classify All Responses" handler)
branches on `use_multilabel`; we split the two branches into named
definitions.  Python semantics preserved here:

* `" | ".join(result.assigned_codes)` is `joinLabels`;
* `if result and result.assigned_codes:` — a pydantic object is always
  truthy, an empty list is falsy;
* `call_claude_api(...) or "API_ERROR"` — Python `or` also replaces an
  *empty* (falsy) string by `"API_ERROR"`, not just `None`.
-/

def joinLabels : List String → String
  | [] => ""
  | [l] => l
  | l :: ls => l ++ " | " ++ joinLabels ls

def call_claude_api_text (oracle : Option String) : Option String :=
  oracle.map pyStrip

def classify_item_multi (oracle : Option (List String)) : String :=
  match oracle with
  | some (c :: cs) => joinLabels (c :: cs)
  | some [] => "No Code Applied"
  | none => "API_ERROR"

def classify_item_single (oracle : Option String) : String :=
  match call_claude_api_text oracle with
  | some s => if s = "" then "API_ERROR" else s
  | none => "API_ERROR"

/-! ### The embedding provider (`get_embeddings`)

The source re-seeds numpy with the fixed seed 42 on every call and then
returns `np.random.rand(384).tolist()` once per input text.  The seeded
generator is external; it is modelled as a fixed stream `Nat → ℚ` of draws
(the same stream on every call, because the seed is fixed).  Draw number
`384*i + j` is component `j` of the vector produced for position `i`.  The
input texts are never read. -/

def embedDim : Nat := 384

def embedVec (stream : Nat → ℚ) (i : Nat) : List ℚ :=
  (List.range embedDim).map fun j => stream (embedDim * i + j)

def get_embeddings (stream : Nat → ℚ) (texts : List String) : List (List ℚ) :=
  (List.range texts.length).map (embedVec stream)

/-! ### The coded column and the Response Set

A cell of the coded pandas column is missing (`NaN`), a string, or some other
scalar; the app's own comments call the column "potentially mixed-type", and
integer cells are enough to exercise every mixed-type behaviour, so `Cell`
has three constructors.  `str(item)` is `cellToStr?` on non-missing cells.

The handler computes (lines 464–470 of `app.py`):
1. `base_unique_responses = df[col].dropna().unique().tolist()` — drop
   missing cells, keep the first occurrence of each distinct *value*;
2. `string_responses = [str(item) for item in base_unique_responses]`;
3. `unique_responses = [t for t in string_responses if t.strip()]`. -/

inductive Cell : Type where
  | na : Cell
  | str (s : String) : Cell
  | int (n : Int) : Cell
deriving DecidableEq, Repr

def cellToStr? : Cell → Option String
  | Cell.na => none
  | Cell.str s => some s
  | Cell.int n => some (toString n)

def uniqueResponses (col : List Cell) : List String :=
  (((firstDedup (col.filter (· ≠ Cell.na))).filterMap cellToStr?).filter
    (fun t => ¬ pyStrip t = ""))

/-! ### The classification run (the "Classify All Responses" handler)

The handler's observable state is the results cache (a Python dict keyed by
response string), the sequence of responses on which a classification call
was issued (`callLog`, one entry per `classify_item` invocation — this is
what `calls_made` counts), and the sequence of percentages reported to the
progress bar.  The LLM classifier is abstracted as `classify : String →
String` (the handler's `classify_item` closure), DBSCAN's output as
`labels : List Int` and the embedding result as `embs`.

`st.stop()` ends the Streamlit script run; the two stop sites (embedding
failure, zero required calls) become the `fatal` / `emptyStop` outcomes,
carrying the state at the moment of the stop.

Progress values: `int(x)` on a non-negative float is modelled as natural
floor division.  The fixed updates are 0 ("Initializing"), 5 (embedding), 15
(clustering), `15 + 70*k/total` after classification call `k`, then 95
(applying) and 100 (complete) — the last two are issued after the branch,
in both the clustering and the individual path. -/

@[ext]
structure RunState : Type where
  cache : List (String × String)
  callLog : List String
  progress : List Nat
deriving DecidableEq, Repr

inductive Outcome : Type where
  | fatal (st : RunState) : Outcome
  | emptyStop (st : RunState) : Outcome
  | done (st : RunState) : Outcome
deriving DecidableEq, Repr

/-- The loop `for cluster_id in cluster_ids: if cluster_id != -1: ...`
(lines 497–502): pick the representative — the first key of
`response_to_cluster` whose value is the cluster id — classify it once,
record the result in `classified_clusters`, and report progress. -/
def clusterLoop (classify : String → String) (rtc : List (String × Int))
    (total : Nat) : List Int → List (Int × String) → RunState →
    List (Int × String) × RunState
  | [], cc, st => (cc, st)
  | c :: cs, cc, st =>
    if c = -1 then clusterLoop classify rtc total cs cc st
    else
      let rep := ((rtc.find? (fun p => p.2 = c)).map Prod.fst).getD ""
      let log := st.callLog ++ [rep]
      clusterLoop classify rtc total cs (dinsert c (classify rep) cc)
        ⟨st.cache, log, st.progress ++ [15 + 70 * log.length / total]⟩

/-- The loop `for response in outliers: ...` (lines 503–505). -/
def outlierLoop (classify : String → String) (total : Nat) :
    List String → RunState → RunState
  | [], st => st
  | r :: rs, st =>
    let log := st.callLog ++ [r]
    outlierLoop classify total rs
      ⟨dinsert r (classify r) st.cache, log,
        st.progress ++ [15 + 70 * log.length / total]⟩

/-- The propagation loop `for response, label in response_to_cluster.items():
if label != -1: results_cache[response] = classified_clusters[label]`
(lines 506–507).  `classified_clusters[label]` cannot miss (every non-noise
label was inserted by `clusterLoop`); the `getD` default is unreachable. -/
def propagateLoop (cc : List (Int × String)) :
    List (String × Int) → List (String × String) → List (String × String)
  | [], cache => cache
  | p :: ps, cache =>
    if p.2 = -1 then propagateLoop cc ps cache
    else propagateLoop cc ps (dinsert p.1 ((dget? cc p.2).getD "KEYERROR") cache)

/-- The clustering branch of the handler (lines 489–507).  `n_clusters =
len(cluster_ids) - (1 if -1 in labels else 0)`; `outliers` collects, in
Response Set order, the responses whose DBSCAN label is `-1`. -/
def runClustering (classify : String → String) (embs : List (List ℚ))
    (responses : List String) (labels : List Int) : Outcome :=
  if embs.isEmpty then Outcome.fatal ⟨[], [], [0, 5]⟩
  else
    let st1 : RunState := ⟨[], [], [0, 5, 15]⟩
    let ids := sortInts (firstDedup labels)
    let nClusters := (firstDedup labels).length - (if (-1 : Int) ∈ labels then 1 else 0)
    let outliers := ((responses.zip labels).filter (fun p => p.2 = -1)).map Prod.fst
    let total := nClusters + outliers.length
    if total = 0 then Outcome.emptyStop st1
    else
      let rtc := dictOfPairs (responses.zip labels)
      let (cc, st2) := clusterLoop classify rtc total ids [] st1
      let st3 := outlierLoop classify total outliers st2
      Outcome.done ⟨propagateLoop cc rtc st3.cache, st3.callLog, st3.progress⟩

/-- The individual branch `for i, response in enumerate(unique_responses)`
(lines 509–511), with `N = len(unique_responses)` fixed before the loop. -/
def individualLoop (classify : String → String) (N : Nat) :
    List String → Nat → RunState → RunState
  | [], _, st => st
  | r :: rs, i, st =>
    individualLoop classify N rs (i + 1)
      ⟨dinsert r (classify r) st.cache, st.callLog ++ [r],
        st.progress ++ [100 * (i + 1) / N]⟩

def runIndividual (classify : String → String) (responses : List String) :
    RunState :=
  individualLoop classify responses.length responses 0 ⟨[], [], [0]⟩

/-- The whole handler after `unique_responses` is built: branch on
`use_clustering and len(unique_responses) > 1`, then (if the branch did not
stop the script) report 95, map the results back, and report 100. -/
def classifyAll (classify : String → String) (embs : List (List ℚ))
    (responses : List String) (labels : List Int) (useClustering : Bool) :
    Outcome :=
  let branch :=
    if useClustering ∧ 1 < responses.length then
      runClustering classify embs responses labels
    else Outcome.done (runIndividual classify responses)
  match branch with
  | Outcome.done st => Outcome.done ⟨st.cache, st.callLog, st.progress ++ [95, 100]⟩
  | o => o

/-- `final_df['Assigned Code'] = final_df[column_to_code].map(results_cache)`
(line 513): `Series.map` with a dict looks each original cell *value* up in
the dict — missing cells map to missing, and a non-string cell is never
equal to a string key, so only string cells can hit the cache. -/
def applyResults (cache : List (String × String)) (col : List Cell) :
    List (Option String) :=
  col.map (fun c => match c with
    | Cell.str s => dget? cache s
    | _ => none)

/-! ### Results view: separator normalization (lines 519–527)

`needs_conversion = series.fillna("").str.contains(",").any()`; if it holds,
the stored column becomes `series.fillna("").str.replace(r'\s*,\s*', ' | ',
regex=True)`.  `re.sub` with pattern `\s*,\s*` replaces, left to right, each
maximal run `whitespace* ',' whitespace*` (the `\s*` parts cannot backtrack
usefully because a shorter whitespace prefix is still followed by a
whitespace character, not a comma). -/

def replCommasFuel : Nat → List Char → List Char
  | 0, _ => []
  | _ + 1, [] => []
  | n + 1, c :: rest =>
    match (c :: rest).dropWhile isPyWs with
    | ',' :: tail => ' ' :: '|' :: ' ' :: replCommasFuel n (tail.dropWhile isPyWs)
    | _ => c :: replCommasFuel n rest

/-- Each `replCommasFuel` step consumes at least one character of the
remaining input and one unit of fuel, so fuel equal to the input length is
never exhausted before the input is; the `0`-fuel base case is
unreachable. -/
def replCommas (l : List Char) : List Char := replCommasFuel l.length l

def normalizeSeps (col : List (Option String)) : List (Option String) :=
  if col.any (fun v => (v.getD "").toList.contains ',') then
    col.map (fun v => some (String.mk (replCommas (v.getD "").toList)))
  else col

/-! ### Results view: frequency aggregation (lines 546–554)

`freq_df = classified_df['Assigned Code'].dropna()`; in multi-label mode it
is split on `\s*\|\s*` and exploded; `value_counts` tallies each distinct
value.  The regex split produces one part per `'|'`-separated segment, with
the whitespace adjoining each pipe consumed; `splitLabels` (split on `'|'`,
then trim each part) produces the same number of parts, which is the only
thing the aggregation claim counts. -/

def splitLabels (s : String) : List String := (s.splitOn "|").map String.trim

def dropna (col : List (Option String)) : List String := col.filterMap id

def valueCounts (l : List String) : List (String × Nat) :=
  (firstDedup l).map (fun v => (v, l.count v))

/-! ### Derived descriptions of the run

Named forms of the quantities the claims talk about: the outlier list, the
distinct non-noise cluster ids (in the iteration order of the handler's
`set(labels)` loop), the representative of a cluster (the first member, in
Response Set order, carrying that cluster id — exactly the
`next(response for response, label in response_to_cluster.items() ...)`
expression of line 499 once `response_to_cluster` is the zip of responses
and labels), the number of classification calls, and the final `RunState`
of each branch. -/

def outlierList (responses : List String) (labels : List Int) : List String :=
  ((responses.zip labels).filter (fun p => p.2 = -1)).map Prod.fst

def nonOutlierIds (labels : List Int) : List Int :=
  (sortInts (firstDedup labels)).filter (fun c => ¬ c = -1)

def representative (responses : List String) (labels : List Int) (c : Int) : String :=
  (((responses.zip labels).find? (fun p => p.2 = c)).map Prod.fst).getD ""

def totalCalls (responses : List String) (labels : List Int) : Nat :=
  (nonOutlierIds labels).length + (outlierList responses labels).length

def clusterRunState (classify : String → String) (responses : List String)
    (labels : List Int) : RunState where
  cache :=
    ((responses.zip labels).filter (fun p => p.2 = -1)).map
      (fun p => (p.1, classify p.1)) ++
    ((responses.zip labels).filter (fun p => ¬ p.2 = -1)).map
      (fun p => (p.1, classify (representative responses labels p.2)))
  callLog :=
    (nonOutlierIds labels).map (representative responses labels) ++
      outlierList responses labels
  progress :=
    [0, 5, 15] ++ (List.range (totalCalls responses labels)).map
      (fun k => 15 + 70 * (k + 1) / totalCalls responses labels)

def individualRunState (classify : String → String) (responses : List String) :
    RunState where
  cache := responses.map (fun r => (r, classify r))
  callLog := responses
  progress :=
    0 :: (List.range responses.length).map
      (fun k => 100 * (k + 1) / responses.length)

/-! ### Multi-label separator containment (for the sentinel claims)

`hasInfixL needle hay` decides whether `needle` occurs contiguously inside
`hay`; `containsSep s` is "the multi-label separator `" | "` occurs in
`s`". -/

def sepChars : List Char := [' ', '|', ' ']

def hasInfixL [DecidableEq α] (needle : List α) : List α → Bool
  | [] => needle.isEmpty
  | a :: rest => needle.isPrefixOf (a :: rest) || hasInfixL needle rest

def containsSep (s : String) : Bool := hasInfixL sepChars s.data

/-! ### Lemmas about the generic helpers -/

theorem keys_append (d1 d2 : List (α × β)) : keys (d1 ++ d2) = keys d1 ++ keys d2 := by
  simp [keys]

theorem dinsert_of_not_mem [DecidableEq α] {k : α} {v : β} {d : List (α × β)}
    (h : k ∉ keys d) : dinsert k v d = d ++ [(k, v)] := by
  simp [dinsert, h]

theorem foldl_dinsert [DecidableEq α] :
    ∀ (ps acc : List (α × β)), (keys acc ++ keys ps).Nodup →
      ps.foldl (fun d p => dinsert p.1 p.2 d) acc = acc ++ ps
  | [], acc, _ => by simp
  | p :: ps, acc, h => by
    have hperm : List.Perm (keys acc ++ p.1 :: keys ps) (p.1 :: (keys acc ++ keys ps)) :=
      List.perm_middle
    have hk : p.1 ∉ keys acc := by
      have h' := hperm.nodup (by simpa [keys] using h)
      intro hmem
      exact (List.nodup_cons.mp h').1 (List.mem_append.mpr (Or.inl hmem))
    rw [List.foldl_cons, dinsert_of_not_mem hk,
      foldl_dinsert ps (acc ++ [p]) (by simpa [keys] using h)]
    simp

theorem dictOfPairs_eq [DecidableEq α] {ps : List (α × β)}
    (h : (keys ps).Nodup) : dictOfPairs ps = ps := by
  have := foldl_dinsert ps [] (by simpa [keys] using h)
  simpa [dictOfPairs] using this

theorem dget?_eq_some_of_mem [DecidableEq α] :
    ∀ {d : List (α × β)}, (keys d).Nodup → ∀ {a : α} {b : β}, (a, b) ∈ d →
      dget? d a = some b
  | [], _, _, _, hmem => by cases hmem
  | p :: ps, hnd, a, b, hmem => by
    rcases List.mem_cons.mp hmem with heq | htail
    · subst heq; simp [dget?, List.find?_cons]
    · have ha : a ∈ keys ps := List.mem_map.mpr ⟨(a, b), htail, rfl⟩
      have hne : ¬ p.1 = a := by
        intro hpa
        exact (List.nodup_cons.mp (by simpa [keys] using hnd)).1 (hpa ▸ ha)
      have hnd' : (keys ps).Nodup := (List.nodup_cons.mp (by simpa [keys] using hnd)).2
      simpa [dget?, List.find?_cons, hne] using dget?_eq_some_of_mem hnd' htail

theorem dget?_append_right [DecidableEq α] {d1 d2 : List (α × β)} {a : α}
    (h : a ∉ keys d1) : dget? (d1 ++ d2) a = dget? d2 a := by
  have hnone : d1.find? (fun p => p.1 = a) = none := by
    rw [List.find?_eq_none]
    intro p hp
    simp only [decide_eq_true_eq]
    intro hpa
    exact h (List.mem_map.mpr ⟨p, hp, hpa⟩)
  simp [dget?, List.find?_append, hnone]

theorem mem_firstDedupGo [DecidableEq α] {x : α} :
    ∀ {l seen : List α}, x ∈ firstDedupGo seen l ↔ x ∈ l ∧ x ∉ seen
  | [], seen => by simp [firstDedupGo]
  | a :: rest, seen => by
    rw [firstDedupGo]
    by_cases ha : a ∈ seen
    · rw [if_pos ha, mem_firstDedupGo]
      constructor
      · rintro ⟨h1, h2⟩
        exact ⟨List.mem_cons_of_mem a h1, h2⟩
      · rintro ⟨h1, h2⟩
        rcases List.mem_cons.mp h1 with rfl | h1'
        · exact absurd ha h2
        · exact ⟨h1', h2⟩
    · rw [if_neg ha]
      constructor
      · intro h
        rcases List.mem_cons.mp h with rfl | h'
        · exact ⟨List.mem_cons_self _ _, ha⟩
        · obtain ⟨h1, h2⟩ := mem_firstDedupGo.mp h'
          have hxs : x ∉ seen := fun hx => h2 (List.mem_cons_of_mem a hx)
          exact ⟨List.mem_cons_of_mem a h1, hxs⟩
      · rintro ⟨h1, h2⟩
        rcases List.mem_cons.mp h1 with rfl | h1'
        · exact List.mem_cons_self _ _
        · by_cases hxa : x = a
          · subst hxa
            exact List.mem_cons_self _ _
          · refine List.mem_cons_of_mem a (mem_firstDedupGo.mpr ⟨h1', ?_⟩)
            intro hx
            rcases List.mem_cons.mp hx with h | h
            · exact hxa h
            · exact h2 h

theorem nodup_firstDedupGo [DecidableEq α] :
    ∀ (l seen : List α), (firstDedupGo seen l).Nodup
  | [], seen => by simp [firstDedupGo]
  | a :: rest, seen => by
    rw [firstDedupGo]
    by_cases ha : a ∈ seen
    · rw [if_pos ha]
      exact nodup_firstDedupGo rest seen
    · rw [if_neg ha]
      refine List.nodup_cons.mpr ⟨?_, nodup_firstDedupGo rest (a :: seen)⟩
      intro hmem
      exact (mem_firstDedupGo.mp hmem).2 (List.mem_cons_self _ _)

theorem mem_firstDedup [DecidableEq α] {x : α} {l : List α} :
    x ∈ firstDedup l ↔ x ∈ l := by
  rw [firstDedup, mem_firstDedupGo]
  simp

theorem nodup_firstDedup [DecidableEq α] (l : List α) : (firstDedup l).Nodup :=
  nodup_firstDedupGo l []

theorem insertSorted_perm (x : Int) :
    ∀ (l : List Int), List.Perm (insertSorted x l) (x :: l)
  | [] => List.Perm.refl _
  | y :: ys => by
    rw [insertSorted]
    split
    · exact List.Perm.refl _
    · exact ((insertSorted_perm x ys).cons y).trans (List.Perm.swap x y ys)

theorem sortInts_perm : ∀ (l : List Int), List.Perm (sortInts l) l
  | [] => List.Perm.refl _
  | a :: l => by
    rw [sortInts, List.foldr_cons]
    exact (insertSorted_perm a _).trans ((sortInts_perm l).cons a)

theorem insertSorted_sorted {x : Int} :
    ∀ {l : List Int}, l.Pairwise (· ≤ ·) → (insertSorted x l).Pairwise (· ≤ ·)
  | [], _ => by simp [insertSorted]
  | y :: ys, h => by
    rw [insertSorted]
    rcases List.pairwise_cons.mp h with ⟨hy, hys⟩
    split
    · rename_i hxy
      exact List.pairwise_cons.mpr ⟨by
        intro z hz
        rcases List.mem_cons.mp hz with rfl | hz'
        · exact hxy
        · exact le_trans hxy (hy z hz'), h⟩
    · rename_i hxy
      refine List.pairwise_cons.mpr ⟨?_, insertSorted_sorted hys⟩
      intro z hz
      rcases List.mem_cons.mp ((insertSorted_perm x ys).mem_iff.mp hz) with rfl | hz'
      · exact le_of_not_le hxy
      · exact hy z hz'

theorem sortInts_sorted : ∀ (l : List Int), (sortInts l).Pairwise (· ≤ ·)
  | [] => by simp [sortInts]
  | a :: l => by
    rw [sortInts, List.foldr_cons]
    exact insertSorted_sorted (sortInts_sorted l)

/-! ### Characterizations of the orchestrator loops

Each loop of the handler is characterized, under the no-duplicate-keys
conditions that hold on a deduplicated Response Set, as an append of the
accumulated state with a `map` over the items the loop touches. -/

theorem map_range_succ_shift (f : Nat → Nat) (n : Nat) :
    (List.range (n + 1)).map f = f 0 :: (List.range n).map (fun k => f (k + 1)) := by
  rw [List.range_succ_eq_map, List.map_cons, List.map_map]
  rfl

theorem clusterLoop_spec (classify : String → String) (rtc : List (String × Int))
    (total : Nat) :
    ∀ (ids : List Int) (cc : List (Int × String)) (st : RunState),
      (keys cc ++ ids.filter (fun c => ¬ c = -1)).Nodup →
      clusterLoop classify rtc total ids cc st =
        (cc ++ (ids.filter (fun c => ¬ c = -1)).map
            (fun c => (c, classify (((rtc.find? (fun p => p.2 = c)).map Prod.fst).getD ""))),
         ⟨st.cache,
          st.callLog ++ (ids.filter (fun c => ¬ c = -1)).map
            (fun c => ((rtc.find? (fun p => p.2 = c)).map Prod.fst).getD ""),
          st.progress ++ (List.range (ids.filter (fun c => ¬ c = -1)).length).map
            (fun k => 15 + 70 * (st.callLog.length + k + 1) / total)⟩)
  | [], cc, st, _ => by simp [clusterLoop]
  | c :: cs, cc, st, h => by
    by_cases hc : c = -1
    · rw [clusterLoop, if_pos hc]
      have hfil : (c :: cs).filter (fun c => ¬ c = -1) = cs.filter (fun c => ¬ c = -1) := by
        simp [List.filter_cons, hc]
      rw [hfil] at h ⊢
      exact clusterLoop_spec classify rtc total cs cc st h
    · rw [clusterLoop, if_neg hc]
      dsimp only
      have hfil : (c :: cs).filter (fun c => ¬ c = -1)
          = c :: cs.filter (fun c => ¬ c = -1) := by
        simp [List.filter_cons, hc]
      rw [hfil] at h
      have hck : c ∉ keys cc := by
        intro hmem
        have h' : (List.Perm (keys cc ++ c :: cs.filter (fun c => ¬ c = -1))
            (c :: (keys cc ++ cs.filter (fun c => ¬ c = -1)))) := List.perm_middle
        exact (List.nodup_cons.mp (h'.nodup h)).1 (List.mem_append.mpr (Or.inl hmem))
      have hnd' : (keys (cc ++ [(c, classify (((rtc.find? (fun p => p.2 = c)).map
          Prod.fst).getD ""))]) ++ cs.filter (fun c => ¬ c = -1)).Nodup := by
        simpa [keys, List.append_assoc] using h
      rw [dinsert_of_not_mem hck, clusterLoop_spec classify rtc total cs _ _ hnd']
      rw [hfil]
      refine Prod.ext ?_ ?_
      · simp
      · refine RunState.ext rfl (by simp) ?_
        show st.progress ++ _ ++ _ = st.progress ++ _
        rw [List.append_assoc]
        refine congrArg (st.progress ++ ·) ?_
        simp only [List.length_cons, List.singleton_append, List.length_append,
          List.length_nil]
        rw [map_range_succ_shift]
        refine congrArg₂ List.cons (by simp) (List.map_congr_left ?_)
        intro k _
        have harg : st.callLog.length + 1 + k + 1 = st.callLog.length + (k + 1) + 1 := by
          omega
        rw [harg]

theorem outlierLoop_spec (classify : String → String) (total : Nat) :
    ∀ (rs : List String) (st : RunState), (keys st.cache ++ rs).Nodup →
      outlierLoop classify total rs st =
        ⟨st.cache ++ rs.map (fun r => (r, classify r)),
         st.callLog ++ rs,
         st.progress ++ (List.range rs.length).map
           (fun k => 15 + 70 * (st.callLog.length + k + 1) / total)⟩
  | [], st, _ => by simp [outlierLoop]
  | r :: rs, st, h => by
    rw [outlierLoop]
    have hrk : r ∉ keys st.cache := by
      intro hmem
      have h' : List.Perm (keys st.cache ++ r :: rs) (r :: (keys st.cache ++ rs)) :=
        List.perm_middle
      exact (List.nodup_cons.mp (h'.nodup h)).1 (List.mem_append.mpr (Or.inl hmem))
    have hnd' : (keys (st.cache ++ [(r, classify r)]) ++ rs).Nodup := by
      simpa [keys, List.append_assoc] using h
    rw [dinsert_of_not_mem hrk, outlierLoop_spec classify total rs _ hnd']
    refine RunState.ext (by simp) (by simp) ?_
    show st.progress ++ _ ++ _ = st.progress ++ _
    rw [List.append_assoc]
    refine congrArg (st.progress ++ ·) ?_
    simp only [List.length_cons, List.singleton_append, List.length_append,
      List.length_nil]
    rw [map_range_succ_shift]
    refine congrArg₂ List.cons (by simp) (List.map_congr_left ?_)
    intro k _
    have harg : st.callLog.length + 1 + k + 1 = st.callLog.length + (k + 1) + 1 := by
      omega
    rw [harg]

theorem individualLoop_spec (classify : String → String) (N : Nat) :
    ∀ (rs : List String) (i : Nat) (st : RunState), (keys st.cache ++ rs).Nodup →
      individualLoop classify N rs i st =
        ⟨st.cache ++ rs.map (fun r => (r, classify r)),
         st.callLog ++ rs,
         st.progress ++ (List.range rs.length).map (fun k => 100 * (i + k + 1) / N)⟩
  | [], _, st, _ => by simp [individualLoop]
  | r :: rs, i, st, h => by
    rw [individualLoop]
    have hrk : r ∉ keys st.cache := by
      intro hmem
      have h' : List.Perm (keys st.cache ++ r :: rs) (r :: (keys st.cache ++ rs)) :=
        List.perm_middle
      exact (List.nodup_cons.mp (h'.nodup h)).1 (List.mem_append.mpr (Or.inl hmem))
    have hnd' : (keys (st.cache ++ [(r, classify r)]) ++ rs).Nodup := by
      simpa [keys, List.append_assoc] using h
    rw [dinsert_of_not_mem hrk, individualLoop_spec classify N rs (i + 1) _ hnd']
    refine RunState.ext (by simp) (by simp) ?_
    show st.progress ++ _ ++ _ = st.progress ++ _
    rw [List.append_assoc]
    refine congrArg (st.progress ++ ·) ?_
    simp only [List.length_cons, List.singleton_append]
    rw [map_range_succ_shift]
    refine congrArg₂ List.cons (by simp) (List.map_congr_left ?_)
    intro k _
    have harg : i + 1 + k + 1 = i + (k + 1) + 1 := by omega
    rw [harg]

theorem propagateLoop_spec (cc : List (Int × String)) :
    ∀ (ps : List (String × Int)) (cache : List (String × String)),
      (keys cache ++ (ps.filter (fun p => ¬ p.2 = -1)).map Prod.fst).Nodup →
      propagateLoop cc ps cache =
        cache ++ (ps.filter (fun p => ¬ p.2 = -1)).map
          (fun p => (p.1, (dget? cc p.2).getD "KEYERROR"))
  | [], cache, _ => by simp [propagateLoop]
  | p :: ps, cache, h => by
    by_cases hp : p.2 = -1
    · rw [propagateLoop, if_pos hp]
      have hfil : (p :: ps).filter (fun q => ¬ q.2 = -1)
          = ps.filter (fun q => ¬ q.2 = -1) := by
        simp [List.filter_cons, hp]
      rw [hfil] at h ⊢
      exact propagateLoop_spec cc ps cache h
    · rw [propagateLoop, if_neg hp]
      have hfil : (p :: ps).filter (fun q => ¬ q.2 = -1)
          = p :: ps.filter (fun q => ¬ q.2 = -1) := by
        simp [List.filter_cons, hp]
      rw [hfil] at h
      have hpk : p.1 ∉ keys cache := by
        intro hmem
        have h' : List.Perm
            (keys cache ++ p.1 :: (ps.filter (fun q => ¬ q.2 = -1)).map Prod.fst)
            (p.1 :: (keys cache ++ (ps.filter (fun q => ¬ q.2 = -1)).map Prod.fst)) :=
          List.perm_middle
        have h'' := h'.nodup (by simpa [keys] using h)
        exact (List.nodup_cons.mp h'').1 (List.mem_append.mpr (Or.inl hmem))
      have hnd' : (keys (cache ++ [(p.1, (dget? cc p.2).getD "KEYERROR")]) ++
          (ps.filter (fun q => ¬ q.2 = -1)).map Prod.fst).Nodup := by
        simpa [keys, List.append_assoc] using h
      rw [dinsert_of_not_mem hpk, propagateLoop_spec cc ps _ hnd']
      rw [hfil]
      simp

/-! ### Facts about the derived quantities -/

theorem keys_zip (responses : List String) (labels : List Int)
    (hlen : labels.length = responses.length) :
    (responses.zip labels).map Prod.fst = responses :=
  List.map_fst_zip _ _ (le_of_eq hlen.symm)

theorem zip_partition_perm {γ : Type} (P : γ → Prop) [DecidablePred P] (l : List γ) :
    List.Perm (l.filter (fun x => P x) ++ l.filter (fun x => ¬ P x)) l := by
  have h := List.filter_append_perm (fun x => decide (P x)) l
  simpa [decide_not] using h

theorem length_filter_not {γ : Type} (p : γ → Bool) (l : List γ) :
    (l.filter (fun x => !p x)).length = l.length - (l.filter p).length := by
  have h := (List.filter_append_perm p l).length_eq
  rw [List.length_append] at h
  omega

theorem length_filter_eq_of_nodup [DecidableEq α] {a : α} :
    ∀ {l : List α}, l.Nodup →
      (l.filter (fun x => x = a)).length = if a ∈ l then 1 else 0
  | [], _ => by simp
  | x :: xs, h => by
    rcases List.nodup_cons.mp h with ⟨hx, hxs⟩
    by_cases hxa : x = a
    · subst hxa
      simp [List.filter_cons, length_filter_eq_of_nodup hxs, hx]
    · have hax : ¬ a = x := fun hh => hxa hh.symm
      simp [List.filter_cons, hxa, length_filter_eq_of_nodup hxs, List.mem_cons, hax]

theorem mem_nonOutlierIds {labels : List Int} {c : Int} :
    c ∈ nonOutlierIds labels ↔ c ∈ labels ∧ ¬ c = -1 := by
  unfold nonOutlierIds
  rw [List.mem_filter, (sortInts_perm _).mem_iff, mem_firstDedup]
  simp

theorem nonOutlierIds_nodup (labels : List Int) : (nonOutlierIds labels).Nodup :=
  ((sortInts_perm (firstDedup labels)).symm.nodup (nodup_firstDedup _)).filter _

theorem nClusters_eq (labels : List Int) :
    (firstDedup labels).length - (if (-1 : Int) ∈ labels then 1 else 0)
      = (nonOutlierIds labels).length := by
  have hperm := sortInts_perm (firstDedup labels)
  have hnds : (sortInts (firstDedup labels)).Nodup :=
    hperm.symm.nodup (nodup_firstDedup _)
  have hlen1 : (sortInts (firstDedup labels)).length = (firstDedup labels).length :=
    hperm.length_eq
  have hmem1 : ((-1 : Int) ∈ sortInts (firstDedup labels)) ↔ (-1 : Int) ∈ labels := by
    rw [hperm.mem_iff, mem_firstDedup]
  have heqlen : ((sortInts (firstDedup labels)).filter (fun x => x = -1)).length
      = if (-1 : Int) ∈ sortInts (firstDedup labels) then 1 else 0 :=
    length_filter_eq_of_nodup hnds
  have hnot : (nonOutlierIds labels).length =
      (sortInts (firstDedup labels)).length
        - ((sortInts (firstDedup labels)).filter (fun x => x = -1)).length := by
    unfold nonOutlierIds
    rw [← length_filter_not (fun c => decide (c = -1)) (sortInts (firstDedup labels))]
    congr 1
    refine List.filter_congr ?_
    intro c _
    simp [decide_not]
  rw [hnot, heqlen, hlen1]
  simp only [hmem1]

theorem outlierList_nodup {responses : List String} {labels : List Int}
    (hlen : labels.length = responses.length) (hnd : responses.Nodup) :
    (outlierList responses labels).Nodup := by
  unfold outlierList
  have hsub : List.Sublist ((responses.zip labels).filter (fun p => p.2 = -1))
      (responses.zip labels) := List.filter_sublist _
  have hsub2 := hsub.map Prod.fst
  rw [keys_zip responses labels hlen] at hsub2
  exact hnd.sublist hsub2

theorem partitionKeys_nodup {responses : List String} {labels : List Int}
    (hlen : labels.length = responses.length) (hnd : responses.Nodup) :
    (outlierList responses labels ++
      ((responses.zip labels).filter (fun p => ¬ p.2 = -1)).map Prod.fst).Nodup := by
  have hperm := (zip_partition_perm (fun p : String × Int => p.2 = -1)
    (responses.zip labels)).map Prod.fst
  rw [List.map_append, keys_zip responses labels hlen] at hperm
  exact hperm.symm.nodup hnd

theorem totalCalls_pos (responses : List String) (labels : List Int)
    (hlen : labels.length = responses.length) (hne : responses ≠ []) :
    0 < totalCalls responses labels := by
  cases responses with
  | nil => exact absurd rfl hne
  | cons r rs =>
    cases labels with
    | nil => simp at hlen
    | cons l0 ls =>
      by_cases h0 : l0 = -1
      · have houtl : r ∈ outlierList (r :: rs) (l0 :: ls) := by
          unfold outlierList
          refine List.mem_map.mpr ⟨(r, l0), ?_, rfl⟩
          refine List.mem_filter.mpr ⟨?_, by simp [h0]⟩
          simp [List.zip_cons_cons]
        have := List.length_pos.mpr (List.ne_nil_of_mem houtl)
        unfold totalCalls
        omega
      · have hidm : l0 ∈ nonOutlierIds (l0 :: ls) :=
          mem_nonOutlierIds.mpr ⟨List.mem_cons_self _ _, h0⟩
        have := List.length_pos.mpr (List.ne_nil_of_mem hidm)
        unfold totalCalls
        omega

theorem keys_mapPair {γ δ : Type} (f : γ → δ) (l : List γ) :
    keys (l.map (fun c => (c, f c))) = l := by
  unfold keys
  rw [List.map_map]
  exact List.map_id'' (fun x => rfl) l

theorem dget?_mapPair {γ : Type} [DecidableEq γ] (g : γ → String) {l : List γ} {c : γ}
    (hnd : l.Nodup) (hc : c ∈ l) :
    dget? (l.map (fun c => (c, g c))) c = some (g c) := by
  apply dget?_eq_some_of_mem
  · rw [keys_mapPair]
    exact hnd
  · exact List.mem_map.mpr ⟨c, hc, rfl⟩

/-- The value map produced by the propagation loop coincides with the
representative-result map: every non-outlier member is propagated the
classification of its cluster's representative. -/
theorem propMap_eq (classify : String → String) (responses : List String)
    (labels : List Int) :
    ((responses.zip labels).filter (fun p => ¬ p.2 = -1)).map
      (fun p => (p.1, (dget? (((sortInts (firstDedup labels)).filter
          (fun c => ¬ c = -1)).map
          (fun c => (c, classify ((((responses.zip labels).find?
            (fun q => q.2 = c)).map Prod.fst).getD ""))))
        p.2).getD "KEYERROR")) =
    ((responses.zip labels).filter (fun p => ¬ p.2 = -1)).map
      (fun p => (p.1, classify (representative responses labels p.2))) := by
  refine List.map_congr_left ?_
  intro p hp
  have hpz := List.mem_filter.mp hp
  have hp2 : p.2 ∈ (sortInts (firstDedup labels)).filter (fun c => ¬ c = -1) := by
    have h1 := mem_nonOutlierIds.mpr ⟨(List.of_mem_zip hpz.1).2, by simpa using hpz.2⟩
    simpa [nonOutlierIds] using h1
  have hdg := dget?_mapPair
    (fun c => classify ((((responses.zip labels).find?
      (fun q => q.2 = c)).map Prod.fst).getD ""))
    (((sortInts_perm (firstDedup labels)).symm.nodup (nodup_firstDedup _)).filter _)
    hp2
  have hdg' : dget? (((sortInts (firstDedup labels)).filter (fun c => ¬ c = -1)).map
      (fun c => (c, classify ((((responses.zip labels).find?
        (fun q => q.2 = c)).map Prod.fst).getD ""))))
      p.2 = some (classify ((((responses.zip labels).find?
        (fun q => q.2 = p.2)).map Prod.fst).getD "")) := hdg
  rw [hdg']
  rfl

/-! ### Master characterizations of the two branches -/

theorem runIndividual_spec (classify : String → String) (responses : List String)
    (hnd : responses.Nodup) :
    runIndividual classify responses = individualRunState classify responses := by
  rw [runIndividual,
    individualLoop_spec classify responses.length responses 0 _ (by simpa [keys] using hnd)]
  unfold individualRunState
  refine RunState.ext (by simp) (by simp) ?_
  simp

theorem runClustering_spec (classify : String → String) (embs : List (List ℚ))
    (responses : List String) (labels : List Int)
    (hlen : labels.length = responses.length) (hnd : responses.Nodup)
    (hemb : embs ≠ []) (hne : responses ≠ []) :
    runClustering classify embs responses labels =
      Outcome.done (clusterRunState classify responses labels) := by
  have hkeyszip : (responses.zip labels).map Prod.fst = responses :=
    keys_zip responses labels hlen
  have hzipnd : ((responses.zip labels).map Prod.fst).Nodup := by
    rw [hkeyszip]; exact hnd
  have hembF : embs.isEmpty = false := by
    cases embs with
    | nil => exact absurd rfl hemb
    | cons e es => rfl
  have htotal := totalCalls_pos responses labels hlen hne
  rw [runClustering]
  dsimp only
  rw [if_neg (by simp [hembF])]
  rw [nClusters_eq labels]
  rw [dictOfPairs_eq (by simpa [keys] using hzipnd)]
  rw [if_neg (by
    unfold totalCalls outlierList at htotal
    omega)]
  rw [clusterLoop_spec classify (responses.zip labels) _ _ _ _
    (by simpa [keys, nonOutlierIds] using nonOutlierIds_nodup labels)]
  dsimp only
  rw [outlierLoop_spec classify _ _ _
    (by simpa [keys, outlierList] using outlierList_nodup hlen hnd)]
  dsimp only
  rw [propagateLoop_spec _ _ _ (by
    have h := partitionKeys_nodup hlen hnd
    unfold outlierList at h
    simpa [keys, List.map_map, Function.comp, List.append_assoc] using h)]
  simp only [List.nil_append]
  rw [propMap_eq classify responses labels]
  unfold clusterRunState totalCalls nonOutlierIds outlierList
  refine congrArg Outcome.done (RunState.ext ?_ ?_ ?_)
  · refine congrArg₂ List.append ?_ rfl
    rw [List.map_map]
    exact List.map_congr_left (fun p _ => rfl)
  · rfl
  · show [0, 5, 15] ++ _ ++ _ = [0, 5, 15] ++ _
    rw [List.append_assoc]
    refine congrArg ([0, 5, 15] ++ ·) ?_
    rw [List.range_add, List.map_append, List.map_map]
    simp only [List.length_nil, Nat.zero_add, List.length_map]
    exact congrArg₂ List.append rfl (List.map_congr_left (fun k _ => rfl))

/-! ### Branch-level characterizations of the handler -/

theorem classifyAll_clustering_spec (classify : String → String)
    (embs : List (List ℚ)) (responses : List String) (labels : List Int)
    (hlen : labels.length = responses.length) (hnd : responses.Nodup)
    (h2 : 1 < responses.length) (hemb : embs ≠ []) :
    classifyAll classify embs responses labels true =
      Outcome.done ⟨(clusterRunState classify responses labels).cache,
        (clusterRunState classify responses labels).callLog,
        (clusterRunState classify responses labels).progress ++ [95, 100]⟩ := by
  have hne : responses ≠ [] := by
    cases responses with
    | nil => simp at h2
    | cons r rs => exact List.cons_ne_nil r rs
  rw [classifyAll]
  rw [if_pos ⟨rfl, h2⟩,
    runClustering_spec classify embs responses labels hlen hnd hemb hne]

theorem classifyAll_individual_spec (classify : String → String)
    (embs : List (List ℚ)) (responses : List String) (labels : List Int)
    (useClustering : Bool) (hnd : responses.Nodup)
    (hcond : ¬ (useClustering = true ∧ 1 < responses.length)) :
    classifyAll classify embs responses labels useClustering =
      Outcome.done ⟨(individualRunState classify responses).cache,
        (individualRunState classify responses).callLog,
        (individualRunState classify responses).progress ++ [95, 100]⟩ := by
  rw [classifyAll]
  rw [if_neg hcond, runIndividual_spec classify responses hnd]

theorem classifyAll_fatal_spec (classify : String → String)
    (responses : List String) (labels : List Int) (h2 : 1 < responses.length) :
    classifyAll classify [] responses labels true = Outcome.fatal ⟨[], [], [0, 5]⟩ := by
  rw [classifyAll]
  rw [if_pos ⟨rfl, h2⟩, runClustering]
  rfl

/-! ### Lookups in the final cluster cache -/

theorem keys_mapFst {γ δ ε : Type} (f : γ × δ → ε) (l : List (γ × δ)) :
    keys (l.map (fun p => (p.1, f p))) = l.map Prod.fst := by
  unfold keys
  rw [List.map_map]
  exact List.map_congr_left (fun p _ => rfl)

theorem keysNodup_snd_unique {γ δ : Type} :
    ∀ {l : List (γ × δ)}, (l.map Prod.fst).Nodup →
      ∀ {a : γ} {b b' : δ}, (a, b) ∈ l → (a, b') ∈ l → b = b'
  | [], _, _, _, _, h1, _ => by cases h1
  | p :: ps, h, a, b, b', h1, h2 => by
    rw [List.map_cons] at h
    rcases List.nodup_cons.mp h with ⟨hp, hps⟩
    rcases List.mem_cons.mp h1 with he1 | ht1 <;> rcases List.mem_cons.mp h2 with he2 | ht2
    · injection he1.trans he2.symm with hfst hsnd
    · exfalso
      have hpa : p.1 = a := by rw [← he1]
      exact hp (by rw [hpa]; exact List.mem_map.mpr ⟨(a, b'), ht2, rfl⟩)
    · exfalso
      have hpa : p.1 = a := by rw [← he2]
      exact hp (by rw [hpa]; exact List.mem_map.mpr ⟨(a, b), ht1, rfl⟩)
    · exact keysNodup_snd_unique hps ht1 ht2

theorem mem_zip_of_mem_snd :
    ∀ {responses : List String} {labels : List Int},
      labels.length = responses.length → ∀ {c : Int}, c ∈ labels →
        ∃ m, (m, c) ∈ responses.zip labels
  | _, [], _, _, hc => by cases hc
  | [], l0 :: ls, hlen, _, _ => by simp at hlen
  | r :: rs, l0 :: ls, hlen, c, hc => by
    rcases List.mem_cons.mp hc with rfl | htail
    · exact ⟨r, by simp [List.zip_cons_cons]⟩
    · obtain ⟨m, hm⟩ := mem_zip_of_mem_snd (by simpa using hlen) htail
      exact ⟨m, by simp [List.zip_cons_cons, hm]⟩

theorem representative_find? {responses : List String} {labels : List Int}
    (hlen : labels.length = responses.length) {c : Int} (hc : c ∈ labels) :
    (responses.zip labels).find? (fun p => p.2 = c)
      = some (representative responses labels c, c) := by
  obtain ⟨m, hm⟩ := mem_zip_of_mem_snd hlen hc
  have hsome : ((responses.zip labels).find? (fun p => p.2 = c)).isSome :=
    List.find?_isSome.mpr ⟨(m, c), hm, by simp⟩
  obtain ⟨p, hp⟩ := Option.isSome_iff_exists.mp hsome
  have hpc : p.2 = c := by simpa using List.find?_some hp
  have hrep : representative responses labels c = p.1 := by
    unfold representative
    rw [hp]
    rfl
  rw [hp, hrep, ← hpc]

theorem clusterCache_lookup (classify : String → String)
    {responses : List String} {labels : List Int}
    (hlen : labels.length = responses.length) (hnd : responses.Nodup)
    {m : String} {c : Int} (hmem : (m, c) ∈ responses.zip labels) (hc : ¬ c = -1) :
    dget? (clusterRunState classify responses labels).cache m
      = some (classify (representative responses labels c)) := by
  have hzipnd : ((responses.zip labels).map Prod.fst).Nodup := by
    rw [keys_zip responses labels hlen]; exact hnd
  unfold clusterRunState
  dsimp only
  have hmA : m ∉ keys (((responses.zip labels).filter (fun p => p.2 = -1)).map
      (fun p => (p.1, classify p.1))) := by
    rw [keys_mapFst (fun p => classify p.1)]
    intro hmem'
    obtain ⟨q, hq, hq1⟩ := List.mem_map.mp hmem'
    have hqf := List.mem_filter.mp hq
    have hq2 : q.2 = -1 := by simpa using hqf.2
    have hqzip : (m, (-1 : Int)) ∈ responses.zip labels := by
      have : q = (m, (-1 : Int)) := by
        rcases q with ⟨q1, q2⟩
        simp only at hq1 hq2
        rw [hq1, hq2]
      exact this ▸ hqf.1
    exact hc (keysNodup_snd_unique hzipnd hmem hqzip)
  rw [dget?_append_right hmA]
  have hBnd : (keys (((responses.zip labels).filter (fun p => ¬ p.2 = -1)).map
      (fun p => (p.1, classify (representative responses labels p.2))))).Nodup := by
    rw [keys_mapFst (fun p => classify (representative responses labels p.2))]
    exact (partitionKeys_nodup hlen hnd).of_append_right
  refine dget?_eq_some_of_mem hBnd ?_
  have hmf : (m, c) ∈ (responses.zip labels).filter (fun p => ¬ p.2 = -1) :=
    List.mem_filter.mpr ⟨hmem, by simpa using hc⟩
  exact List.mem_map.mpr ⟨(m, c), hmf, rfl⟩

theorem clusterCache_keys_perm (classify : String → String)
    {responses : List String} {labels : List Int}
    (hlen : labels.length = responses.length) :
    List.Perm (keys (clusterRunState classify responses labels).cache) responses := by
  unfold clusterRunState
  dsimp only
  rw [keys_append, keys_mapFst (fun p => classify p.1),
    keys_mapFst (fun p => classify (representative responses labels p.2))]
  have hperm := (zip_partition_perm (fun p : String × Int => p.2 = -1)
    (responses.zip labels)).map Prod.fst
  rw [List.map_append, keys_zip responses labels hlen] at hperm
  exact hperm

theorem dget?_isSome_of_mem_keys [DecidableEq α] {d : List (α × β)}
    (hnd : (keys d).Nodup) {a : α} (ha : a ∈ keys d) : ∃ v, dget? d a = some v := by
  obtain ⟨p, hp, hp1⟩ := List.mem_map.mp ha
  refine ⟨p.2, dget?_eq_some_of_mem hnd ?_⟩
  rw [← hp1]
  simpa using hp

theorem nonOutlierIds_pairwise_lt (labels : List Int) :
    (nonOutlierIds labels).Pairwise (· < ·) := by
  have hsorted : (nonOutlierIds labels).Pairwise (· ≤ ·) := by
    unfold nonOutlierIds
    exact (sortInts_sorted (firstDedup labels)).filter _
  have hne : (nonOutlierIds labels).Pairwise (· ≠ ·) := nonOutlierIds_nodup labels
  exact (hsorted.and hne).imp (fun h => lt_of_le_of_ne h.1 h.2)

theorem progressList_chain (T : Nat) (hT : 0 < T) :
    List.Chain' (· ≤ ·)
      ([0, 5, 15] ++ ((List.range T).map (fun k => 15 + 70 * (k + 1) / T) ++ [95, 100])) := by
  rw [List.chain'_iff_pairwise]
  have hbound : ∀ v ∈ (List.range T).map (fun k => 15 + 70 * (k + 1) / T),
      15 ≤ v ∧ v ≤ 85 := by
    intro v hv
    obtain ⟨k, hk, rfl⟩ := List.mem_map.mp hv
    have hk' : k + 1 ≤ T := List.mem_range.mp hk
    have h1 : 70 * (k + 1) ≤ 70 * T := Nat.mul_le_mul_left _ hk'
    have h2 : 70 * (k + 1) / T ≤ 70 * T / T := Nat.div_le_div_right h1
    have h3 : 70 * T / T = 70 := Nat.mul_div_cancel 70 hT
    have h4 : 70 * (k + 1) / T ≤ 70 := le_trans h2 (le_of_eq h3)
    exact ⟨Nat.le_add_right 15 _, le_trans (Nat.add_le_add_left h4 15) (by norm_num)⟩
  have hmid : ((List.range T).map (fun k => 15 + 70 * (k + 1) / T)).Pairwise (· ≤ ·) := by
    rw [List.pairwise_map]
    refine (List.pairwise_lt_range T).imp ?_
    intro a b hab
    have h1 : 70 * (a + 1) ≤ 70 * (b + 1) := by omega
    have h2 : 70 * (a + 1) / T ≤ 70 * (b + 1) / T := Nat.div_le_div_right h1
    exact Nat.add_le_add_left h2 15
  rw [List.pairwise_append]
  refine ⟨by decide, ?_, ?_⟩
  · rw [List.pairwise_append]
    refine ⟨hmid, by decide, ?_⟩
    intro a ha b hb
    have := (hbound a ha).2
    have hb' : b = 95 ∨ b = 100 := by
      rcases List.mem_cons.mp hb with h | h
      · exact Or.inl h
      · exact Or.inr (by simpa using h)
    rcases hb' with rfl | rfl <;> omega
  · intro a ha b hb
    have ha' : a ≤ 15 := by
      rcases List.mem_cons.mp ha with rfl | h
      · omega
      · rcases List.mem_cons.mp h with rfl | h'
        · omega
        · simp at h'
          omega
    rcases List.mem_append.mp hb with hbm | hbt
    · have := (hbound b hbm).1
      omega
    · have hb' : b = 95 ∨ b = 100 := by
        rcases List.mem_cons.mp hbt with h | h
        · exact Or.inl h
        · exact Or.inr (by simpa using h)
      rcases hb' with rfl | rfl <;> omega

/-! ### The claims -/

/-- Claim C1: with clustering enabled and more than one Response Set member,
the run completes having issued exactly `n_clusters + |outliers|`
classification calls (with `n_clusters` computed exactly as the code does,
`len(set(labels)) - (1 if -1 in labels else 0)`); each non-outlier cluster's
representative is the first member, in Response Set iteration order, whose
label is that cluster id (witnessed by the `find?` decomposition of the
zipped Response Set); and every member of a non-outlier cluster — the
representative included — receives exactly the representative's
classification result in the results cache. -/
theorem c1_cluster_call_count_and_propagation
    (classify : String → String) (embs : List (List ℚ))
    (responses : List String) (labels : List Int)
    (hlen : labels.length = responses.length) (hnd : responses.Nodup)
    (h2 : 1 < responses.length) (hemb : embs ≠ []) :
    ∃ st, classifyAll classify embs responses labels true = Outcome.done st ∧
      st.callLog.length
        = ((firstDedup labels).length - (if (-1 : Int) ∈ labels then 1 else 0))
          + (outlierList responses labels).length ∧
      (∀ c, c ∈ labels → ¬ c = -1 →
        ∃ pre post, responses.zip labels
            = pre ++ (representative responses labels c, c) :: post ∧
          ∀ q ∈ pre, ¬ q.2 = c) ∧
      (∀ m c, (m, c) ∈ responses.zip labels → ¬ c = -1 →
        dget? st.cache m = some (classify (representative responses labels c)) ∧
        dget? st.cache (representative responses labels c)
          = some (classify (representative responses labels c))) := by
  refine ⟨_, classifyAll_clustering_spec classify embs responses labels hlen hnd h2 hemb,
    ?_, ?_, ?_⟩
  · show (clusterRunState classify responses labels).callLog.length = _
    unfold clusterRunState
    dsimp only
    rw [List.length_append, List.length_map, nClusters_eq labels]
  · intro c hc hcne
    have hf := representative_find? hlen hc
    obtain ⟨hpb, pre, post, heq, hall⟩ := List.find?_eq_some.mp hf
    refine ⟨pre, post, heq, ?_⟩
    intro q hq
    have := hall q hq
    simpa using this
  · intro m c hm hc
    refine ⟨clusterCache_lookup classify hlen hnd hm hc, ?_⟩
    have hcl : c ∈ labels := (List.of_mem_zip hm).2
    have hrc : (representative responses labels c, c) ∈ responses.zip labels :=
      List.mem_of_find?_eq_some (representative_find? hlen hcl)
    exact clusterCache_lookup classify hlen hnd hrc hc

/-- Claim C1 witness: a three-member Response Set with one two-member cluster
and one outlier. -/
theorem c1_witness :
    ∃ st, classifyAll (fun r => r ++ "!") [[(1 : ℚ)]] ["a", "b", "c"] [0, 0, -1] true
        = Outcome.done st ∧
      st.callLog.length = 2 ∧
      dget? st.cache "b" = some "a!" := by
  obtain ⟨st, hrun, hcalls, hfirst, hprop⟩ :=
    c1_cluster_call_count_and_propagation (fun r => r ++ "!") [[(1 : ℚ)]]
      ["a", "b", "c"] [0, 0, -1] (by decide) (by decide) (by decide)
      (by simp)
  refine ⟨st, hrun, ?_, ?_⟩
  · rw [hcalls]
    decide
  · have h := (hprop "b" 0 (by decide) (by decide)).1
    rw [h]
    decide

/-- Claim C2: under either branch, a completed run's results cache has every
Response Set member exactly once as a key (the key multiset is a permutation
of the Response Set and has no duplicates), and looking any member up yields
exactly one classification result. -/
theorem c2_complete_coverage
    (classify : String → String) (embs : List (List ℚ))
    (responses : List String) (labels : List Int) (useClustering : Bool)
    (hlen : labels.length = responses.length) (hnd : responses.Nodup)
    (hemb : embs ≠ []) :
    ∃ st, classifyAll classify embs responses labels useClustering = Outcome.done st ∧
      List.Perm (keys st.cache) responses ∧ (keys st.cache).Nodup ∧
      ∀ r ∈ responses, ∃ v, dget? st.cache r = some v := by
  by_cases hcl : useClustering = true ∧ 1 < responses.length
  · obtain ⟨hu, h2⟩ := hcl
    subst hu
    have hperm := clusterCache_keys_perm classify hlen
    have hknd : (keys (clusterRunState classify responses labels).cache).Nodup :=
      hperm.symm.nodup hnd
    refine ⟨_, classifyAll_clustering_spec classify embs responses labels hlen hnd h2 hemb,
      hperm, hknd, ?_⟩
    intro r hr
    exact dget?_isSome_of_mem_keys hknd (hperm.mem_iff.mpr hr)
  · have hkeys : keys (individualRunState classify responses).cache = responses := by
      unfold individualRunState
      exact keys_mapPair classify responses
    refine ⟨_, classifyAll_individual_spec classify embs responses labels useClustering hnd hcl,
      ?_, ?_, ?_⟩
    · rw [hkeys]
    · rw [hkeys]
      exact hnd
    · intro r hr
      refine dget?_isSome_of_mem_keys ?_ ?_ <;> rw [hkeys]
      · exact hnd
      · exact hr

/-- Claim C2 witness: a clustering run and an individual run over a concrete
three-member Response Set. -/
theorem c2_witness :
    ∃ st, classifyAll (fun _ => "X") [[(1 : ℚ)]] ["a", "b", "c"] [0, 0, -1] false
        = Outcome.done st ∧
      List.Perm (keys st.cache) ["a", "b", "c"] ∧ (keys st.cache).Nodup ∧
      ∀ r ∈ ["a", "b", "c"], ∃ v, dget? st.cache r = some v :=
  c2_complete_coverage (fun _ => "X") [[(1 : ℚ)]] ["a", "b", "c"] [0, 0, -1] false
    (by decide) (by decide) (by simp)

/-- Claim C4: (i) the sentinels of both classifier modes on upstream failure;
(ii) a clustering batch completes no matter what the per-item classifier
returns (failures never abort it); (iii) in the individual branch a failed
item is recorded in the cache as the failure sentinel, for the structured
(multi-label) and the raw-text (single-label) path alike; (iv) an empty
embedding result with clustering requested aborts fatally with an empty call
log — no classification call is ever issued. -/
theorem c4_failure_isolation_and_fatal_embedding
    (oracleM : String → Option (List String)) (oracleS : String → Option String)
    (classify : String → String) (embs : List (List ℚ))
    (responses : List String) (labels : List Int)
    (hlen : labels.length = responses.length) (hnd : responses.Nodup)
    (h2 : 1 < responses.length) (hemb : embs ≠ []) :
    (classify_item_multi none = "API_ERROR" ∧ classify_item_single none = "API_ERROR") ∧
    (∃ st, classifyAll (fun r => classify_item_multi (oracleM r)) embs responses labels true
        = Outcome.done st) ∧
    (∀ r ∈ responses, oracleM r = none →
      ∃ st, classifyAll (fun r => classify_item_multi (oracleM r)) embs responses labels false
          = Outcome.done st ∧ dget? st.cache r = some "API_ERROR") ∧
    (∀ r ∈ responses, oracleS r = none →
      ∃ st, classifyAll (fun r => classify_item_single (oracleS r)) embs responses labels false
          = Outcome.done st ∧ dget? st.cache r = some "API_ERROR") ∧
    classifyAll classify [] responses labels true = Outcome.fatal ⟨[], [], [0, 5]⟩ := by
  refine ⟨⟨rfl, rfl⟩, ?_, ?_, ?_, classifyAll_fatal_spec classify responses labels h2⟩
  · exact ⟨_, classifyAll_clustering_spec _ embs responses labels hlen hnd h2 hemb⟩
  · intro r hr hor
    refine ⟨_, classifyAll_individual_spec _ embs responses labels false hnd (by simp), ?_⟩
    show dget? (individualRunState _ responses).cache r = _
    unfold individualRunState
    dsimp only
    rw [dget?_mapPair (fun r => classify_item_multi (oracleM r)) hnd hr, hor]
    rfl
  · intro r hr hor
    refine ⟨_, classifyAll_individual_spec _ embs responses labels false hnd (by simp), ?_⟩
    show dget? (individualRunState _ responses).cache r = _
    unfold individualRunState
    dsimp only
    rw [dget?_mapPair (fun r => classify_item_single (oracleS r)) hnd hr, hor]
    rfl

/-- Claim C4 witness: concrete failing oracles on a two-member Response Set. -/
theorem c4_witness :
    (classify_item_multi none = "API_ERROR" ∧ classify_item_single none = "API_ERROR") ∧
    (∃ st, classifyAll (fun r => classify_item_multi ((fun _ => none) r))
        [[(1 : ℚ)]] ["a", "b"] [-1, -1] true = Outcome.done st) ∧
    (∀ r ∈ ["a", "b"], (fun _ => (none : Option (List String))) r = none →
      ∃ st, classifyAll (fun r => classify_item_multi ((fun _ => none) r))
          [[(1 : ℚ)]] ["a", "b"] [-1, -1] false
          = Outcome.done st ∧ dget? st.cache r = some "API_ERROR") ∧
    (∀ r ∈ ["a", "b"], (fun _ => (none : Option String)) r = none →
      ∃ st, classifyAll (fun r => classify_item_single ((fun _ => none) r))
          [[(1 : ℚ)]] ["a", "b"] [-1, -1] false
          = Outcome.done st ∧ dget? st.cache r = some "API_ERROR") ∧
    classifyAll (fun _ => "X") [] ["a", "b"] [-1, -1] true
      = Outcome.fatal ⟨[], [], [0, 5]⟩ :=
  c4_failure_isolation_and_fatal_embedding (fun _ => none) (fun _ => none)
    (fun _ => "X") [[(1 : ℚ)]] ["a", "b"] [-1, -1]
    (by decide) (by decide) (by decide) (by simp)

/-- Claim C9: in a completed clustering run the progress sequence is exactly
the fixed prefix 0, 5, 15, then one value `15 + 70*k/total` per
classification call `k`, then 95 and 100; it is monotonically non-decreasing
from the small fixed starting offset to completion; and the call log is the
cluster representatives in ascending cluster-id order followed by the
outliers in Response Set order, with exactly `totalCalls` entries. -/
theorem c9_progress_monotone_and_call_order
    (classify : String → String) (embs : List (List ℚ))
    (responses : List String) (labels : List Int)
    (hlen : labels.length = responses.length) (hnd : responses.Nodup)
    (h2 : 1 < responses.length) (hemb : embs ≠ []) :
    ∃ st, classifyAll classify embs responses labels true = Outcome.done st ∧
      st.progress = [0, 5, 15] ++
        ((List.range (totalCalls responses labels)).map
          (fun k => 15 + 70 * (k + 1) / totalCalls responses labels) ++ [95, 100]) ∧
      List.Chain' (· ≤ ·) st.progress ∧
      st.progress.head? = some 0 ∧
      st.progress.getLast? = some 100 ∧
      st.callLog = (nonOutlierIds labels).map (representative responses labels)
          ++ outlierList responses labels ∧
      st.callLog.length = totalCalls responses labels ∧
      (nonOutlierIds labels).Pairwise (· < ·) := by
  have hne : responses ≠ [] := by
    cases responses with
    | nil => simp at h2
    | cons r rs => exact List.cons_ne_nil r rs
  have hT := totalCalls_pos responses labels hlen hne
  refine ⟨_, classifyAll_clustering_spec classify embs responses labels hlen hnd h2 hemb,
    ?_, ?_, ?_, ?_, ?_, ?_, nonOutlierIds_pairwise_lt labels⟩
  · show (clusterRunState classify responses labels).progress ++ [95, 100] = _
    unfold clusterRunState
    dsimp only
    rw [List.append_assoc]
  · show List.Chain' (· ≤ ·) ((clusterRunState classify responses labels).progress ++ [95, 100])
    unfold clusterRunState
    dsimp only
    rw [List.append_assoc]
    exact progressList_chain (totalCalls responses labels) hT
  · rfl
  · show ((clusterRunState classify responses labels).progress ++ [95, 100]).getLast? = some 100
    have hsplit : (clusterRunState classify responses labels).progress ++ [95, 100]
        = ((clusterRunState classify responses labels).progress ++ [95]) ++ [100] := by
      rw [List.append_assoc]
      rfl
    rw [hsplit, List.getLast?_concat]
  · rfl
  · show (clusterRunState classify responses labels).callLog.length = _
    unfold clusterRunState totalCalls
    dsimp only
    rw [List.length_append, List.length_map]

/-- Claim C9 witness: the concrete clustering run over three members. -/
theorem c9_witness :
    ∃ st, classifyAll (fun _ => "X") [[(1 : ℚ)]] ["a", "b", "c"] [0, 0, -1] true
        = Outcome.done st ∧
      st.progress = [0, 5, 15] ++
        ((List.range (totalCalls ["a", "b", "c"] [0, 0, -1])).map
          (fun k => 15 + 70 * (k + 1) / totalCalls ["a", "b", "c"] [0, 0, -1]) ++ [95, 100]) ∧
      List.Chain' (· ≤ ·) st.progress ∧
      st.progress.head? = some 0 ∧
      st.progress.getLast? = some 100 ∧
      st.callLog = (nonOutlierIds [0, 0, -1]).map
          (representative ["a", "b", "c"] [0, 0, -1])
          ++ outlierList ["a", "b", "c"] [0, 0, -1] ∧
      st.callLog.length = totalCalls ["a", "b", "c"] [0, 0, -1] ∧
      (nonOutlierIds [0, 0, -1]).Pairwise (· < ·) :=
  c9_progress_monotone_and_call_order (fun _ => "X") [[(1 : ℚ)]]
    ["a", "b", "c"] [0, 0, -1] (by decide) (by decide) (by decide) (by simp)

/-! ### Support for C3, C5, C7, C10 -/

theorem isPrefixOf_append_self [DecidableEq α] :
    ∀ (l y : List α), l.isPrefixOf (l ++ y) = true
  | [], _ => by simp [List.isPrefixOf]
  | a :: as, y => by
    show (a :: as).isPrefixOf (a :: (as ++ y)) = true
    simp [List.isPrefixOf, isPrefixOf_append_self as y]

theorem hasInfixL_append_mid [DecidableEq α] :
    ∀ (x : List α) (needle y : List α), hasInfixL needle (x ++ (needle ++ y)) = true
  | [], needle, y => by
    cases needle with
    | nil =>
      cases y with
      | nil => rfl
      | cons c cs => simp [hasInfixL]
    | cons c cs =>
      show hasInfixL (c :: cs) (c :: (cs ++ y)) = true
      rw [hasInfixL]
      have : (c :: cs).isPrefixOf ((c :: cs) ++ y) = true := isPrefixOf_append_self _ _
      simp only [List.cons_append] at this
      simp [this]
  | a :: as, needle, y => by
    show hasInfixL needle (a :: (as ++ (needle ++ y))) = true
    rw [hasInfixL]
    simp [hasInfixL_append_mid as needle y]

theorem joinLabels_cons_cons (l1 l2 : String) (t : List String) :
    joinLabels (l1 :: l2 :: t) = l1 ++ " | " ++ joinLabels (l2 :: t) := rfl

theorem containsSep_joinLabels_cons_cons (l1 l2 : String) (t : List String) :
    containsSep (joinLabels (l1 :: l2 :: t)) = true := by
  rw [joinLabels_cons_cons]
  unfold containsSep
  have hdata : (l1 ++ " | " ++ joinLabels (l2 :: t)).data
      = l1.data ++ (sepChars ++ (joinLabels (l2 :: t)).data) := by
    rw [String.data_append, String.data_append, List.append_assoc]
    rfl
  rw [hdata]
  exact hasInfixL_append_mid l1.data sepChars (joinLabels (l2 :: t)).data

theorem sum_map_add {γ : Type} (f g : γ → Nat) :
    ∀ (l : List γ), (l.map (fun x => f x + g x)).sum = (l.map f).sum + (l.map g).sum
  | [] => rfl
  | x :: xs => by
    simp only [List.map_cons, List.sum_cons, sum_map_add f g xs]
    omega

theorem sum_map_indicator [DecidableEq α] {a : α} :
    ∀ {d : List α}, d.Nodup → a ∈ d →
      (d.map (fun x => if x = a then 1 else 0)).sum = 1
  | [], _, h => by cases h
  | x :: xs, hnd, hmem => by
    rcases List.nodup_cons.mp hnd with ⟨hx, hxs⟩
    rcases List.mem_cons.mp hmem with rfl | htail
    · simp only [List.map_cons, List.sum_cons, if_pos rfl]
      have hzero : (xs.map (fun y => if y = a then 1 else 0)).sum = 0 := by
        refine List.sum_eq_zero ?_
        intro v hv
        obtain ⟨y, hy, rfl⟩ := List.mem_map.mp hv
        have hya : ¬ y = a := fun h => hx (h ▸ hy)
        simp [hya]
      rw [hzero]
      simp
    · have hxa : ¬ x = a := fun h => hx (h ▸ htail)
      simp only [List.map_cons, List.sum_cons, if_neg hxa,
        sum_map_indicator hxs htail]

theorem sum_map_count [DecidableEq α] :
    ∀ (l d : List α), d.Nodup → (∀ x ∈ l, x ∈ d) →
      (d.map (fun v => l.count v)).sum = l.length
  | [], d, _, _ => by
    refine (List.sum_eq_zero ?_).trans rfl
    intro v hv
    obtain ⟨y, _, rfl⟩ := List.mem_map.mp hv
    simp
  | a :: t, d, hnd, hsub => by
    have hstep : d.map (fun v => (a :: t).count v)
        = d.map (fun v => t.count v + (if v = a then 1 else 0)) := by
      refine List.map_congr_left ?_
      intro v _
      rw [List.count_cons]
      by_cases hv : v = a
      · simp [hv]
      · have hav : ¬ a = v := fun hh => hv hh.symm
        simp [hv, hav]
    rw [hstep, sum_map_add, sum_map_count t d hnd (fun x hx => hsub x (List.mem_cons_of_mem a hx)),
      sum_map_indicator hnd (hsub a (List.mem_cons_self a t))]
    simp

theorem sum_valueCounts (l : List String) :
    ((valueCounts l).map Prod.snd).sum = l.length := by
  unfold valueCounts
  rw [List.map_map]
  have hcomp : (Prod.snd ∘ fun v => ((v : String), l.count v)) = fun v => l.count v := rfl
  rw [hcomp]
  exact sum_map_count l (firstDedup l) (nodup_firstDedup l)
    (fun x hx => mem_firstDedup.mpr hx)

theorem replCommasFuel_no_comma : ∀ (n : Nat) (l : List Char), ',' ∉ replCommasFuel n l
  | 0, l => by simp [replCommasFuel]
  | n + 1, [] => by simp [replCommasFuel]
  | n + 1, c :: rest => by
    rw [replCommasFuel]
    split
    · rename_i tail heq
      intro hmem
      rcases List.mem_cons.mp hmem with h | h
      · exact absurd h.symm (by decide)
      rcases List.mem_cons.mp h with h' | h'
      · exact absurd h'.symm (by decide)
      rcases List.mem_cons.mp h' with h'' | h''
      · exact absurd h''.symm (by decide)
      · exact replCommasFuel_no_comma n _ h''
    · rename_i hne
      intro hmem
      rcases List.mem_cons.mp hmem with h | h
      · have hcws : isPyWs ',' = false := by decide
        rw [← h] at hne
        refine hne rest ?_
        rw [List.dropWhile_cons]
        simp [hcws]
      · exact replCommasFuel_no_comma n rest h

theorem replCommas_no_comma (l : List Char) : ',' ∉ replCommas l :=
  replCommasFuel_no_comma l.length l

/-! ### The claims, continued -/

/-- Claim C3 counterexample: the claim that the embedding provider is a
pure function of the text is false — `get_embeddings` never reads the texts,
it draws a fresh segment of the (re-seeded) stream per *position*, so the
same string at two positions of the very same call receives two different
vectors. -/
theorem c3_counterexample :
    ¬ ∀ (stream : Nat → ℚ) (t1 t2 : List String) (i j : Nat) (s : String),
        t1[i]? = some s → t2[j]? = some s →
        (get_embeddings stream t1)[i]? = (get_embeddings stream t2)[j]? := by
  intro h
  have h1 := h (fun n => (n : ℚ)) ["a", "a"] ["a", "a"] 0 1 "a" rfl rfl
  have h2 : (some (embedVec (fun n => (n : ℚ)) 0) : Option (List ℚ))
      = some (embedVec (fun n => (n : ℚ)) 1) := h1
  have h3 : embedVec (fun n => (n : ℚ)) 0 = embedVec (fun n => (n : ℚ)) 1 :=
    Option.some.inj h2
  have h4 := congrArg (fun l => l[0]?) h3
  have h5 : (some ((0 : Nat) : ℚ) : Option ℚ) = some ((384 : Nat) : ℚ) := by
    have hv0 : (embedVec (fun n => (n : ℚ)) 0)[0]? = some ((0 : Nat) : ℚ) := by
      unfold embedVec embedDim
      rw [List.getElem?_map, List.getElem?_range (by omega)]
      rfl
    have hv1 : (embedVec (fun n => (n : ℚ)) 1)[0]? = some ((384 : Nat) : ℚ) := by
      unfold embedVec embedDim
      rw [List.getElem?_map, List.getElem?_range (by omega)]
      rfl
    rw [← hv0, ← hv1]
    exact h4
  have h6 : (0 : Nat) = 384 := Nat.cast_inj.mp (Option.some.inj h5)
  exact absurd h6 (by decide)

/-- Claim C3 (amended): the embedding provider returns exactly one vector
per input text, in input order, and is deterministic across calls (the seed
is fixed); however the vector for a position depends only on the position
and the seeded stream, never on the text — any two equal-length inputs
receive identical embedding lists. -/
theorem c3_length_order_and_content_independence (stream : Nat → ℚ)
    (t1 t2 : List String) (h : t1.length = t2.length) :
    (get_embeddings stream t1).length = t1.length ∧
    get_embeddings stream t1 = get_embeddings stream t2 ∧
    ∀ i, i < t1.length → (get_embeddings stream t1)[i]? = some (embedVec stream i) := by
  refine ⟨by simp [get_embeddings], by simp [get_embeddings, h], ?_⟩
  intro i hi
  unfold get_embeddings
  rw [List.getElem?_map, List.getElem?_range hi]
  rfl

/-- Claim C3 witness: two distinct one-element inputs receive the same
embedding list. -/
theorem c3_witness :
    (get_embeddings (fun n => (n : ℚ)) ["x"]).length = 1 ∧
    get_embeddings (fun n => (n : ℚ)) ["x"] = get_embeddings (fun n => (n : ℚ)) ["y"] := by
  have h := c3_length_order_and_content_independence (fun n => (n : ℚ)) ["x"] ["y"] rfl
  exact ⟨h.1, h.2.1⟩

/-- Claim C5 counterexample: with only the "no label contains the separator"
assumption the claim is false — the legitimate single label
"No Code Applied" (separator-free) joins to exactly the empty-list
sentinel. -/
theorem c5_counterexample :
    ¬ ∀ (labels : List String), labels ≠ [] →
        (∀ l ∈ labels, containsSep l = false) →
        joinLabels labels ≠ "No Code Applied" ∧ joinLabels labels ≠ "API_ERROR" := by
  intro h
  have hx := (h ["No Code Applied"] (by simp) (by
    intro l hl
    rw [List.mem_singleton.mp hl]
    decide)).1
  exact hx rfl

/-- Claim C5 (amended): multi-label serialization joins a non-empty label
list with the fixed separator in order, an empty list gives the sentinel
"No Code Applied", a failed call gives "API_ERROR"; the two sentinels are
distinct; and a joined string of separator-free labels never equals either
sentinel provided additionally that no label *is* one of the two sentinel
literals. -/
theorem c5_serialization_and_sentinels (labels : List String)
    (hne : labels ≠ [])
    (hsep : ∀ l ∈ labels, containsSep l = false)
    (hlit : ∀ l ∈ labels, l ≠ "No Code Applied" ∧ l ≠ "API_ERROR") :
    ("No Code Applied" ≠ "API_ERROR") ∧
    classify_item_multi (some labels) = joinLabels labels ∧
    classify_item_multi (some []) = "No Code Applied" ∧
    classify_item_multi none = "API_ERROR" ∧
    joinLabels labels ≠ "No Code Applied" ∧
    joinLabels labels ≠ "API_ERROR" := by
  refine ⟨by decide, ?_, rfl, rfl, ?_, ?_⟩
  · cases labels with
    | nil => exact absurd rfl hne
    | cons l ls => rfl
  · cases labels with
    | nil => exact absurd rfl hne
    | cons l1 ls =>
      cases ls with
      | nil => simpa [joinLabels] using (hlit l1 (List.mem_cons_self _ _)).1
      | cons l2 t =>
        intro heq
        have hc := containsSep_joinLabels_cons_cons l1 l2 t
        rw [heq] at hc
        exact absurd hc (by decide)
  · cases labels with
    | nil => exact absurd rfl hne
    | cons l1 ls =>
      cases ls with
      | nil => simpa [joinLabels] using (hlit l1 (List.mem_cons_self _ _)).2
      | cons l2 t =>
        intro heq
        have hc := containsSep_joinLabels_cons_cons l1 l2 t
        rw [heq] at hc
        exact absurd hc (by decide)

/-- Claim C5 witness: a two-label result. -/
theorem c5_witness :
    ("No Code Applied" ≠ "API_ERROR") ∧
    classify_item_multi (some ["Price", "Delivery"]) = joinLabels ["Price", "Delivery"] ∧
    classify_item_multi (some []) = "No Code Applied" ∧
    classify_item_multi none = "API_ERROR" ∧
    joinLabels ["Price", "Delivery"] ≠ "No Code Applied" ∧
    joinLabels ["Price", "Delivery"] ≠ "API_ERROR" :=
  c5_serialization_and_sentinels ["Price", "Delivery"] (by simp) (by decide) (by decide)

/-- Claim C6 (code-bug evaluation): the mixed-type coded column
`[3 (integer), "3" (string)]` yields the Response Set `["3", "3"]` (the
string forms), the run caches a result for the member `"3"`, and the
integer row's string form is exactly that member; yet the map-back leaves
the integer row unassigned, because `Series.map` looks the *raw* cell value
up in the string-keyed cache. -/
theorem c6_mapback_misses_nonstring_rows :
    uniqueResponses [Cell.int 3, Cell.str "3"] = ["3", "3"] ∧
    ∃ st, classifyAll (fun _ => "X") []
        (uniqueResponses [Cell.int 3, Cell.str "3"]) [] false = Outcome.done st ∧
      dget? st.cache "3" = some "X" ∧
      cellToStr? (Cell.int 3) = some "3" ∧
      applyResults st.cache [Cell.int 3, Cell.str "3"] = [none, some "X"] := by
  refine ⟨by decide, ⟨⟨[("3", "X")], ["3", "3"], [0, 50, 100, 95, 100]⟩, by decide,
    by decide, by decide, by decide⟩⟩

/-- Claim C7: frequency aggregation is conservative — in single-label mode
the `value_counts` frequencies over the non-null Assigned Code values sum to
the number of non-null rows; in multi-label mode, after splitting each
row's joined string and exploding, the per-label frequencies sum to the
total number of split labels over all non-null rows. -/
theorem c7_frequency_conservation (col : List (Option String)) :
    ((valueCounts (dropna col)).map Prod.snd).sum = (dropna col).length ∧
    ((valueCounts ((dropna col).flatMap splitLabels)).map Prod.snd).sum
      = ((dropna col).map (fun v => (splitLabels v).length)).sum := by
  refine ⟨sum_valueCounts _, ?_⟩
  rw [sum_valueCounts, List.length_flatMap]
  exact congrArg List.sum (List.map_congr_left (fun v _ => rfl))

/-- Claim C8 counterexample: a successful LLM call whose text strips to the
empty string does not produce the trimmed raw text — the Python
`or "API_ERROR"` fallback also swallows the falsy empty string. -/
theorem c8_counterexample :
    call_claude_api_text (some " ") = some (pyStrip " ") ∧
    classify_item_single (some " ") ≠ pyStrip " " := by
  exact ⟨rfl, by decide⟩

/-- Claim C8 (amended): when the LLM call succeeds and the trimmed text is
non-empty, the single-label classification result is exactly that trimmed
text; a failed call yields "API_ERROR", and a successful call whose trimmed
text is empty is also coerced to "API_ERROR" by the falsy-string
fallback. -/
theorem c8_trimmed_text_result (raw : String) (h : ¬ pyStrip raw = "") :
    classify_item_single (some raw) = pyStrip raw ∧
    classify_item_single none = "API_ERROR" ∧
    ∀ raw2 : String, pyStrip raw2 = "" → classify_item_single (some raw2) = "API_ERROR" := by
  refine ⟨?_, rfl, ?_⟩
  · unfold classify_item_single call_claude_api_text
    simp [h]
  · intro raw2 h2
    unfold classify_item_single call_claude_api_text
    simp [h2]

/-- Claim C8 witness. -/
theorem c8_witness :
    classify_item_single (some " hi ") = pyStrip " hi " ∧
    classify_item_single none = "API_ERROR" := by
  have h := c8_trimmed_text_result " hi " (by decide)
  exact ⟨h.1, h.2.1⟩

/-- Claim C10: if any non-null Assigned Code value contains a comma, the
stored column becomes the null-filled column with every
whitespace-comma-whitespace run rewritten to the separator — afterwards no
stored value contains a comma at all, commas inside legitimate single-label
results included; otherwise the column is left unchanged. -/
theorem c10_comma_normalization (col : List (Option String)) :
    ((col.any (fun v => (v.getD "").toList.contains ',')) = true →
      normalizeSeps col
          = col.map (fun v => some (String.mk (replCommas (v.getD "").toList))) ∧
      ∀ w ∈ normalizeSeps col, ∀ s, w = some s → ',' ∉ s.toList) ∧
    ((col.any (fun v => (v.getD "").toList.contains ',')) = false →
      normalizeSeps col = col) := by
  constructor
  · intro hcond
    have heq : normalizeSeps col
        = col.map (fun v => some (String.mk (replCommas (v.getD "").toList))) := by
      unfold normalizeSeps
      rw [if_pos hcond]
    refine ⟨heq, ?_⟩
    intro w hw s hws
    rw [heq] at hw
    obtain ⟨v, _, hveq⟩ := List.mem_map.mp hw
    have hs : s = String.mk (replCommas (v.getD "").toList) := by
      rw [hws] at hveq
      exact (Option.some.inj hveq).symm
    rw [hs]
    exact replCommas_no_comma _
  · intro hcond
    unfold normalizeSeps
    rw [if_neg (by rw [hcond]; decide)]

/-- Claim C10 witness: a column with a comma is fully rewritten; a column
without one is untouched. -/
theorem c10_witness :
    (normalizeSeps [some "a,b", none] = [some "a | b", some ""] ∧
      ∀ w ∈ normalizeSeps [some "a,b", none], ∀ s, w = some s → ',' ∉ s.toList) ∧
    normalizeSeps [some "ab"] = [some "ab"] := by
  have h1 := (c10_comma_normalization [some "a,b", none]).1 (by decide)
  have h2 := (c10_comma_normalization [some "ab"]).2 (by decide)
  refine ⟨⟨?_, h1.2⟩, h2⟩
  rw [h1.1]
  decide

end SurveyCoder
